import Mathlib

/-!
Verification of the football stock-market pricing pipeline.

The development shallowly embeds the three modules of the repository:
* `load_data.py` — the panel builder (`_expand_home_away`);
* `features_engineering.py` — the feature engine (`add_basic_features`);
* `pricing.py` — the coefficient fitter (`fit_pricing_coefficients`) and the
  price integrator (`compute_stock_prices`).

Modelling conventions: floating-point numbers become `ℚ`; a pandas cell that
may hold `NaN` becomes `Option ℚ` (or `Option ℤ`), with `none` standing for
`NaN`; a dataframe becomes a list of row structures, plus boolean flags for
the presence of optional columns where column absence matters; team names and
dates become `ℕ` identifiers (only equality and order are ever used);
`pandas.sort_values` becomes an insertion sort on the same key;
`np.linalg.solve` becomes the explicit inverse `det⁻¹ • adjugate` guarded by
a singularity test, raising (= `none`) exactly when the matrix is singular;
a raised `KeyError`/`LinAlgError` becomes an `Except`/`Option` error value.
-/

namespace FootballPricing

/-! ### Panel builder (`load_data.py`, `_expand_home_away`) -/

/-- A raw match record, one row of the cleaned results file: columns
`Date, Season, HomeTeam, AwayTeam, FTHG, FTAG, FTR, HY, AY, HR, AR`. -/
structure MatchRecord where
  Date : Nat
  Season : Nat
  HomeTeam : Nat
  AwayTeam : Nat
  FTHG : Int
  FTAG : Int
  FTR : String
  HY : Option Int
  AY : Option Int
  HR : Option Int
  AR : Option Int
deriving DecidableEq

/-- One team-perspective row of the team-match panel produced by
`_expand_home_away`. -/
structure TeamMatchRow where
  date : Nat
  season : Nat
  team : Nat
  opponent : Nat
  home_away : String
  goals_for : Int
  goals_against : Int
  yellow : Option Int
  red : Option Int
  result : String
  pts : Int
deriving DecidableEq

/-- `_result_from_pov`: convert the full-time result `H`/`D`/`A` to a result
from this row's perspective, given the row's venue (`"h"` or `"a"`). -/
def resultFromPov (full_result home_away : String) : String :=
  if full_result = "D" then "D"
  else if full_result = "H" ∧ home_away = "h" then "W"
  else if full_result = "A" ∧ home_away = "a" then "W"
  else "L"

/-- The points map `{"W": 3, "D": 1, "L": 0}` (only ever applied to outputs of
`resultFromPov`, which are exactly `W`, `D`, `L`). -/
def ptsOfResult (result : String) : Int :=
  if result = "W" then 3 else if result = "D" then 1 else 0

/-- The home-perspective row built for one match. -/
def homeRow (m : MatchRecord) : TeamMatchRow :=
  { date := m.Date, season := m.Season, team := m.HomeTeam, opponent := m.AwayTeam,
    home_away := "h", goals_for := m.FTHG, goals_against := m.FTAG,
    yellow := m.HY, red := m.HR,
    result := resultFromPov m.FTR "h",
    pts := ptsOfResult (resultFromPov m.FTR "h") }

/-- The away-perspective row built for one match. -/
def awayRow (m : MatchRecord) : TeamMatchRow :=
  { date := m.Date, season := m.Season, team := m.AwayTeam, opponent := m.HomeTeam,
    home_away := "a", goals_for := m.FTAG, goals_against := m.FTHG,
    yellow := m.AY, red := m.AR,
    result := resultFromPov m.FTR "a",
    pts := ptsOfResult (resultFromPov m.FTR "a") }

/-- `_expand_home_away`: each match yields its home row and its away row; the
two blocks are concatenated as by `pd.concat([home, away])`. -/
def expand_home_away (ms : List MatchRecord) : List TeamMatchRow :=
  ms.map homeRow ++ ms.map awayRow

/-- Claim C4: for every match record with full-time result in `{H, D, A}`, the
panel builder emits exactly two team rows (cardinality `2 ×` input), whose
`goals_for`/`goals_against` are swapped and whose venues are opposite; their
points sum to `3` (one `W` worth 3, one `L` worth 0) or to `2` (both `D`
worth 1), never any other combination; each row's result is `D` when the
match is a draw, else `W` exactly when the full-time result names that row's
venue, else `L`. -/
theorem expand_home_away_spec (ms : List MatchRecord) (m : MatchRecord)
    (hm : m ∈ ms) (hftr : m.FTR = "H" ∨ m.FTR = "D" ∨ m.FTR = "A") :
    (expand_home_away ms).length = 2 * ms.length ∧
    homeRow m ∈ expand_home_away ms ∧ awayRow m ∈ expand_home_away ms ∧
    (homeRow m).goals_for = (awayRow m).goals_against ∧
    (homeRow m).goals_against = (awayRow m).goals_for ∧
    (homeRow m).home_away = "h" ∧ (awayRow m).home_away = "a" ∧
    (homeRow m).team = (awayRow m).opponent ∧ (homeRow m).opponent = (awayRow m).team ∧
    (m.FTR = "H" → (homeRow m).result = "W" ∧ (awayRow m).result = "L" ∧
      (homeRow m).pts = 3 ∧ (awayRow m).pts = 0) ∧
    (m.FTR = "D" → (homeRow m).result = "D" ∧ (awayRow m).result = "D" ∧
      (homeRow m).pts = 1 ∧ (awayRow m).pts = 1) ∧
    (m.FTR = "A" → (homeRow m).result = "L" ∧ (awayRow m).result = "W" ∧
      (homeRow m).pts = 0 ∧ (awayRow m).pts = 3) ∧
    ((homeRow m).pts + (awayRow m).pts = 3 ∨ (homeRow m).pts + (awayRow m).pts = 2) := by
  refine ⟨?_, ?_, ?_, rfl, rfl, rfl, rfl, rfl, rfl, ?_, ?_, ?_, ?_⟩
  · simp [expand_home_away, Nat.two_mul]
  · exact List.mem_append_left _ (List.mem_map_of_mem homeRow hm)
  · exact List.mem_append_right _ (List.mem_map_of_mem awayRow hm)
  · intro h
    simp [homeRow, awayRow, resultFromPov, ptsOfResult, h]
  · intro h
    simp [homeRow, awayRow, resultFromPov, ptsOfResult, h]
  · intro h
    simp [homeRow, awayRow, resultFromPov, ptsOfResult, h]
  · rcases hftr with h | h | h <;>
      simp [homeRow, awayRow, resultFromPov, ptsOfResult, h]

/-- Witness for C4 at a concrete home-win match. -/
theorem expand_home_away_spec_witness :
    (expand_home_away [⟨7, 2025, 1, 2, 3, 1, "H", some 2, some 1, some 0, some 0⟩]).length
        = 2 * ([⟨7, 2025, 1, 2, 3, 1, "H", some 2, some 1, some 0, some 0⟩] :
            List MatchRecord).length ∧
    ((homeRow ⟨7, 2025, 1, 2, 3, 1, "H", some 2, some 1, some 0, some 0⟩).pts
        + (awayRow ⟨7, 2025, 1, 2, 3, 1, "H", some 2, some 1, some 0, some 0⟩).pts = 3 ∨
     (homeRow ⟨7, 2025, 1, 2, 3, 1, "H", some 2, some 1, some 0, some 0⟩).pts
        + (awayRow ⟨7, 2025, 1, 2, 3, 1, "H", some 2, some 1, some 0, some 0⟩).pts = 2) :=
  ⟨(expand_home_away_spec [⟨7, 2025, 1, 2, 3, 1, "H", some 2, some 1, some 0, some 0⟩]
      ⟨7, 2025, 1, 2, 3, 1, "H", some 2, some 1, some 0, some 0⟩
      (List.mem_singleton.mpr rfl) (Or.inl rfl)).1,
   (expand_home_away_spec [⟨7, 2025, 1, 2, 3, 1, "H", some 2, some 1, some 0, some 0⟩]
      ⟨7, 2025, 1, 2, 3, 1, "H", some 2, some 1, some 0, some 0⟩
      (List.mem_singleton.mpr rfl) (Or.inl rfl)).2.2.2.2.2.2.2.2.2.2.2.2⟩

/-! ### Shared helpers: sort key and contiguous run splitting

`df.sort_values(["team", "date"])` sorts lexicographically by team then date;
`groupby("team")` on the sorted frame then acts on the maximal contiguous
runs of equal team. -/

/-- Lexicographic `(team, date)` sort order, abstract in the row type. -/
def sortLe {α : Type} (team date : α → Nat) (a b : α) : Prop :=
  team a < team b ∨ (team a = team b ∧ date a ≤ date b)

instance {α : Type} (team date : α → Nat) : DecidableRel (sortLe team date) :=
  fun a b => inferInstanceAs (Decidable (_ ∨ _))

instance {α : Type} (team date : α → Nat) : IsTotal α (sortLe team date) := by
  constructor
  intro a b
  rcases Nat.lt_trichotomy (team a) (team b) with h | h | h
  · exact Or.inl (Or.inl h)
  · rcases Nat.le_total (date a) (date b) with hd | hd
    · exact Or.inl (Or.inr ⟨h, hd⟩)
    · exact Or.inr (Or.inr ⟨h.symm, hd⟩)
  · exact Or.inr (Or.inl h)

instance {α : Type} (team date : α → Nat) : IsTrans α (sortLe team date) := by
  constructor
  intro a b c hab hbc
  rcases hab with h | ⟨h, hd⟩
  · rcases hbc with h' | ⟨h', _⟩
    · exact Or.inl (h.trans h')
    · exact Or.inl (h' ▸ h)
  · rcases hbc with h' | ⟨h', hd'⟩
    · exact Or.inl (h ▸ h')
    · exact Or.inr ⟨h.trans h', hd.trans hd'⟩

/-- Split the tail of a list into the run of elements sharing `key a` that
continues the current head `a`, plus the remaining runs. -/
def splitRunsAux {α : Type} (key : α → Nat) (a : α) : List α → List α × List (List α)
  | [] => ([a], [])
  | b :: bs =>
    let p := splitRunsAux key b bs
    if key a = key b then (a :: p.1, p.2) else ([a], p.1 :: p.2)

/-- Split a list into its maximal contiguous runs of equal `key`; on a frame
sorted by `(team, date)` with `key = team` this is exactly the family of
per-team groups that `groupby("team")` processes. -/
def splitRuns {α : Type} (key : α → Nat) : List α → List (List α)
  | [] => []
  | a :: as => (splitRunsAux key a as).1 :: (splitRunsAux key a as).2

/-- `rolling(window=3, min_periods=1).mean()` over one group's value
sequence: at position `i` the mean of the values at positions
`max(0, i-2) .. i` (note `i - 2` is truncated ℕ subtraction). -/
def rolling3 (l : List ℚ) : List ℚ :=
  (List.range l.length).map (fun i =>
    ((l.take (i + 1)).drop (i - 2)).sum / (((l.take (i + 1)).drop (i - 2)).length : ℚ))

/-- `expanding().mean()` over one group's value sequence: at position `i`
the mean of the values at positions `0 .. i`. -/
def expandingMean (l : List ℚ) : List ℚ :=
  (List.range l.length).map (fun i => (l.take (i + 1)).sum / ((i + 1 : ℕ) : ℚ))

/-! ### Feature engine (`features_engineering.py`, `add_basic_features`) -/

/-- A pandas `KeyError` on a missing column, which the spec classifies as a
`SchemaError` naming the absent column. -/
structure SchemaError where
  column : String
deriving DecidableEq

/-- One row of the team-match panel as consumed by `add_basic_features`.
Cells that can hold `NaN` are `Option`-valued. -/
structure PanelRow where
  team : Nat
  date : Nat
  opponent : Nat
  goals_against : Option Int
  pts : ℚ
  xG_for : Option ℚ
  xG_against : Option ℚ
  yellow : Option Int
  red : Option Int
deriving DecidableEq, Inhabited

/-- The input dataframe of the feature engine: its rows plus presence flags
for the columns whose absence the code can observe (`xG_for`/`xG_against`
are synthesized when absent; `goals_against`, `yellow`, `red`, `pts` raise a
`KeyError` when absent). -/
structure Panel where
  rows : List PanelRow
  hasXGfor : Bool
  hasXGagainst : Bool
  hasGoalsAgainst : Bool
  hasYellow : Bool
  hasRed : Bool
  hasPts : Bool
deriving DecidableEq

/-- One row of the engineered feature dataframe. -/
structure FeatureRow where
  team : Nat
  date : Nat
  opponent : Nat
  goals_against : Option Int
  pts : ℚ
  xG_for : ℚ
  xG_against : ℚ
  xGD : ℚ
  clean_sheet : ℚ
  yellow : Int
  red : Int
  card_points : Int
  form3 : ℚ
  team_avg_pts : ℚ
  opp_avg_pts : ℚ
deriving DecidableEq, Inhabited

/-- The rows of the feature table whose `(date, team)` key matches the given
row's `(date, opponent)` key — the right-hand side of the self-merge
`df.merge(opp_avg, on=["date", "opponent"], how="left")`. -/
def oppMatches (rows : List FeatureRow) (r : FeatureRow) : List FeatureRow :=
  rows.filter (fun s => s.date = r.date ∧ s.team = r.opponent)

/-- The merged pairs contributed by one left row: one pair per matching right
row, or a single `none`-valued pair when there is no match (pandas left
merge). -/
def mergeContrib (rows : List FeatureRow) (r : FeatureRow) : List (FeatureRow × Option ℚ) :=
  if (oppMatches rows r).isEmpty then [(r, none)]
  else (oppMatches rows r).map (fun s => (r, some s.team_avg_pts))

/-- The opponent-strength join of `add_basic_features`: left-merge the
`(date, team, team_avg_pts)` projection onto `(date, opponent)`, then fill
unmatched rows with the league mean of `team_avg_pts`, computed once over the
merged table. -/
def attachOpp (rows : List FeatureRow) : List FeatureRow :=
  let merged := rows.flatMap (mergeContrib rows)
  let leagueMean := (merged.map (fun q => q.1.team_avg_pts)).sum / (merged.length : ℚ)
  merged.map (fun q => { q.1 with opp_avg_pts := q.2.getD leagueMean })

/-- The engineered columns before the opponent join: sort by `(team, date)`,
synthesize/fill the xG columns, derive `xGD`, `clean_sheet` and
`card_points` per row, and compute `form3` (rolling mean) and `team_avg_pts`
(expanding mean) over each team's group of the sorted frame. -/
def featBase (p : Panel) : List FeatureRow :=
  let sorted := p.rows.insertionSort (sortLe PanelRow.team PanelRow.date)
  (splitRuns PanelRow.team sorted).flatMap (fun g =>
    let ptsl := g.map PanelRow.pts
    (List.range g.length).map (fun i =>
      let r := g.getD i default
      let xf : ℚ := if p.hasXGfor then r.xG_for.getD 0 else 0
      let xa : ℚ := if p.hasXGagainst then r.xG_against.getD 0 else 0
      { team := r.team, date := r.date, opponent := r.opponent,
        goals_against := r.goals_against, pts := r.pts,
        xG_for := xf, xG_against := xa, xGD := xf - xa,
        clean_sheet := if r.goals_against = some 0 then 1 else 0,
        yellow := r.yellow.getD 0, red := r.red.getD 0,
        card_points := r.yellow.getD 0 + 2 * r.red.getD 0,
        form3 := (rolling3 ptsl).getD i 0,
        team_avg_pts := (expandingMean ptsl).getD i 0,
        opp_avg_pts := 0 }))

/-- `add_basic_features`: build the engineered columns, then attach
`opp_avg_pts` via the self-merge. Accessing an absent required column raises
(`Except.error`), in the order the columns are touched by the code:
`goals_against`, `yellow`, `red`, `pts`; an absent xG column never raises. -/
def add_basic_features (p : Panel) : Except SchemaError (List FeatureRow) :=
  if p.hasGoalsAgainst = false then .error ⟨"goals_against"⟩
  else if p.hasYellow = false then .error ⟨"yellow"⟩
  else if p.hasRed = false then .error ⟨"red"⟩
  else if p.hasPts = false then .error ⟨"pts"⟩
  else .ok (attachOpp (featBase p))

/-- Index characterization of `rolling3`. -/
theorem rolling3_getD (l : List ℚ) (i : ℕ) (hi : i < l.length) :
    (rolling3 l).getD i 0
      = ((l.take (i + 1)).drop (i - 2)).sum / (((l.take (i + 1)).drop (i - 2)).length : ℚ) := by
  have hlen : i < (rolling3 l).length := by
    simpa [rolling3] using hi
  rw [List.getD_eq_getElem _ _ hlen]
  simp [rolling3]

/-- Index characterization of `expandingMean`. -/
theorem expandingMean_getD (l : List ℚ) (i : ℕ) (hi : i < l.length) :
    (expandingMean l).getD i 0 = (l.take (i + 1)).sum / ((i + 1 : ℕ) : ℚ) := by
  have hlen : i < (expandingMean l).length := by
    simpa [expandingMean] using hi
  rw [List.getD_eq_getElem _ _ hlen]
  simp [expandingMean]

/-- Claim C6: for each team's date-ordered point sequence the feature engine
sets `form3[i] = mean(points[max(0, i-2) .. i])` — a trailing window of at
most 3 observations, minimum window 1 — and for a constant sequence at `p`
every `form3[i]` equals `p`. -/
theorem form3_spec :
    (∀ (l : List ℚ) (i : ℕ), i < l.length →
        (rolling3 l).getD i 0
          = ((l.take (i + 1)).drop (i - 2)).sum
              / (((l.take (i + 1)).drop (i - 2)).length : ℚ)) ∧
    (∀ (p : ℚ) (n i : ℕ), i < n → (rolling3 (List.replicate n p)).getD i 0 = p) := by
  refine ⟨rolling3_getD, ?_⟩
  intro p n i hi
  have hlen : i < (List.replicate n p).length := by simpa using hi
  rw [rolling3_getD _ _ hlen]
  have htake : (List.replicate n p).take (i + 1) = List.replicate (min (i + 1) n) p :=
    List.take_replicate _ _ _
  have hmin : min (i + 1) n = i + 1 := Nat.min_eq_left (Nat.succ_le_of_lt hi)
  have hdrop : (List.replicate (i + 1) p).drop (i - 2) = List.replicate (i + 1 - (i - 2)) p :=
    List.drop_replicate _ _ _
  rw [htake, hmin, hdrop]
  have hk : i + 1 - (i - 2) ≠ 0 := by
    have : i - 2 < i + 1 := Nat.lt_succ_of_le (Nat.sub_le i 2)
    omega
  rw [List.sum_replicate, List.length_replicate, nsmul_eq_mul]
  exact mul_div_cancel_left₀ p (by exact_mod_cast hk)

/-- Witness for C6: a constant sequence of points 5 has `form3 = 5` at
position 2. -/
theorem form3_spec_witness : (rolling3 (List.replicate 4 (5 : ℚ))).getD 2 0 = 5 :=
  form3_spec.2 5 4 2 (by norm_num)

/-- Claim C7: for each team's date-ordered point sequence the feature engine
sets `team_avg_pts[i] = mean(points[0 .. i])` (full expanding mean), and for
the point sequence `[3, 0, 3]` the produced values are exactly
`[3.0, 1.5, 2.0]`. -/
theorem team_avg_pts_spec :
    (∀ (l : List ℚ) (i : ℕ), i < l.length →
        (expandingMean l).getD i 0 = (l.take (i + 1)).sum / ((i + 1 : ℕ) : ℚ)) ∧
    expandingMean [3, 0, 3] = [3, 3/2, 2] := by
  refine ⟨expandingMean_getD, ?_⟩
  norm_num [expandingMean, List.range_succ]

/-- Witness for C7 at the one-element sequence `[4]`. -/
theorem team_avg_pts_spec_witness :
    (expandingMean [(4 : ℚ)]).getD 0 0 = ([(4 : ℚ)].take (0 + 1)).sum / ((0 + 1 : ℕ) : ℚ) :=
  team_avg_pts_spec.1 [4] 0 (by norm_num)

/-- The value the left merge attaches to a row: the `team_avg_pts` of the
first matching right row, if any. -/
def oppVal (rows : List FeatureRow) (r : FeatureRow) : Option ℚ :=
  (oppMatches rows r).head?.map FeatureRow.team_avg_pts

/-- The league mean: the mean of `team_avg_pts` over a table. -/
def leagueMean (rows : List FeatureRow) : ℚ :=
  (rows.map FeatureRow.team_avg_pts).sum / (rows.length : ℚ)

/-- Under one-row-per-`(team, date)` uniqueness, at most one row matches any
`(date, opponent)` key. -/
theorem oppMatches_length_le_one (rows : List FeatureRow) (r : FeatureRow)
    (hu : rows.Pairwise fun a b => ¬(a.date = b.date ∧ a.team = b.team)) :
    (oppMatches rows r).length ≤ 1 := by
  rcases h : oppMatches rows r with _ | ⟨x, _ | ⟨y, t⟩⟩
  · simp
  · simp
  · exfalso
    have hp : (oppMatches rows r).Pairwise
        (fun a b => ¬(a.date = b.date ∧ a.team = b.team)) :=
      List.Pairwise.sublist (List.filter_sublist rows) hu
    rw [h] at hp
    have hxy := (List.pairwise_cons.mp hp).1 y (by simp)
    have hx : x ∈ oppMatches rows r := by rw [h]; simp
    have hy : y ∈ oppMatches rows r := by rw [h]; simp
    have hx' := (List.mem_filter.mp hx).2
    have hy' := (List.mem_filter.mp hy).2
    simp only [decide_eq_true_eq] at hx' hy'
    exact hxy ⟨hx'.1.trans hy'.1.symm, hx'.2.trans hy'.2.symm⟩

/-- Under uniqueness each left row contributes exactly one merged pair,
carrying `oppVal`. -/
theorem mergeContrib_eq (rows : List FeatureRow) (r : FeatureRow)
    (hu : rows.Pairwise fun a b => ¬(a.date = b.date ∧ a.team = b.team)) :
    mergeContrib rows r = [(r, oppVal rows r)] := by
  have hlen := oppMatches_length_le_one rows r hu
  rcases h : oppMatches rows r with _ | ⟨x, t⟩
  · simp [mergeContrib, oppVal, h]
  · have ht : t = [] := by
      rw [h] at hlen
      simpa using hlen
    subst ht
    simp [mergeContrib, oppVal, h]

/-- A `flatMap` whose function yields singletons is a `map`. -/
theorem flatMap_eq_map_of_singleton {α β : Type} (l : List α) (f : α → List β) (g : α → β)
    (h : ∀ a ∈ l, f a = [g a]) : l.flatMap f = l.map g := by
  induction l with
  | nil => rfl
  | cons a as ih =>
    rw [List.flatMap_cons, h a (List.mem_cons_self a as), List.map_cons,
      ih (fun b hb => h b (List.mem_cons_of_mem a hb))]
    rfl

/-- Under uniqueness, `attachOpp` is a per-row map: each row keeps its own
fields and gets `opp_avg_pts := oppVal`, defaulting to the league mean of
`team_avg_pts` over the whole table. -/
theorem attachOpp_eq_map (rows : List FeatureRow)
    (hu : rows.Pairwise fun a b => ¬(a.date = b.date ∧ a.team = b.team)) :
    attachOpp rows = rows.map (fun r =>
      { r with opp_avg_pts := Option.getD (oppVal rows r) (leagueMean rows) }) := by
  unfold attachOpp
  have hmerged : rows.flatMap (mergeContrib rows)
      = rows.map (fun r => (r, oppVal rows r)) :=
    flatMap_eq_map_of_singleton rows _ _ (fun r _ => mergeContrib_eq rows r hu)
  rw [hmerged, List.map_map, List.map_map, List.length_map]
  rfl

/-- Claim C5: under the precondition of at most one row per `(team, date)`,
`opp_avg_pts` of a row equals the `team_avg_pts` of the row whose `team`
equals this row's `opponent` on the same date when such a row exists (a row
distinct from this one whenever `team ≠ opponent` — no self-leak), and
otherwise equals the league mean of `team_avg_pts`, taken once after the
join over all rows of the table. -/
theorem opp_avg_pts_spec (rows : List FeatureRow)
    (huniq : rows.Pairwise fun a b => ¬(a.date = b.date ∧ a.team = b.team))
    (i : ℕ) (hi : i < rows.length) :
    (attachOpp rows).length = rows.length ∧
    (∀ s ∈ rows, s.date = (rows.getD i default).date →
        s.team = (rows.getD i default).opponent →
        ((attachOpp rows).getD i default).opp_avg_pts = s.team_avg_pts ∧
        ((rows.getD i default).team ≠ (rows.getD i default).opponent →
          s ≠ rows.getD i default)) ∧
    ((∀ s ∈ rows, ¬(s.date = (rows.getD i default).date ∧
        s.team = (rows.getD i default).opponent)) →
        ((attachOpp rows).getD i default).opp_avg_pts = leagueMean rows) ∧
    ((attachOpp rows).getD i default).team = (rows.getD i default).team ∧
    ((attachOpp rows).getD i default).date = (rows.getD i default).date ∧
    ((attachOpp rows).getD i default).team_avg_pts
      = (rows.getD i default).team_avg_pts := by
  have hmap := attachOpp_eq_map rows huniq
  have hlen : (attachOpp rows).length = rows.length := by rw [hmap, List.length_map]
  have hi' : i < (attachOpp rows).length := by rw [hlen]; exact hi
  have hget : (attachOpp rows).getD i default
      = { rows[i] with opp_avg_pts := Option.getD (oppVal rows rows[i]) (leagueMean rows) } := by
    rw [List.getD_eq_getElem _ _ hi']
    simp only [hmap, List.getElem_map]
  have hri : rows.getD i default = rows[i] := List.getD_eq_getElem _ _ hi
  refine ⟨hlen, ?_, ?_, ?_, ?_, ?_⟩
  · intro s hs hdate hteam
    rw [hri] at hdate hteam ⊢
    constructor
    · have hsmem : s ∈ oppMatches rows rows[i] := by
        rw [oppMatches, List.mem_filter]
        exact ⟨hs, by simp [hdate, hteam]⟩
      have hlen1 := oppMatches_length_le_one rows rows[i] huniq
      rcases h : oppMatches rows rows[i] with _ | ⟨x, t⟩
      · rw [h] at hsmem; simp at hsmem
      · have ht : t = [] := by rw [h] at hlen1; simpa using hlen1
        subst ht
        rw [h] at hsmem
        have hsx : s = x := by simpa using hsmem
        rw [hget]
        simp [oppVal, h, hsx]
    · intro hne heq
      rw [heq] at hteam
      exact hne hteam
  · intro hnone
    rw [hri] at hnone
    have hempty : oppMatches rows rows[i] = [] := by
      rw [oppMatches, List.filter_eq_nil_iff]
      intro a ha
      simpa using hnone a ha
    rw [hget]
    simp [oppVal, hempty]
  · rw [hget, hri]
  · rw [hget, hri]
  · rw [hget, hri]

/-- A concrete feature row (team 1 hosting team 2) for the C5 witness. -/
def wrowA : FeatureRow :=
  { team := 1, date := 5, opponent := 2, goals_against := some 0, pts := 3,
    xG_for := 1, xG_against := 0, xGD := 1, clean_sheet := 1, yellow := 0,
    red := 0, card_points := 0, form3 := 3, team_avg_pts := 3, opp_avg_pts := 0 }

/-- A concrete feature row (team 2 visiting team 1) for the C5 witness. -/
def wrowB : FeatureRow :=
  { team := 2, date := 5, opponent := 1, goals_against := some 1, pts := 0,
    xG_for := 0, xG_against := 1, xGD := -1, clean_sheet := 0, yellow := 2,
    red := 0, card_points := 2, form3 := 0, team_avg_pts := 7, opp_avg_pts := 0 }

/-- Witness for C5: on a two-row table the first row receives the second
row's `team_avg_pts` as its `opp_avg_pts`. -/
theorem opp_avg_pts_spec_witness :
    (attachOpp [wrowA, wrowB]).length = ([wrowA, wrowB] : List FeatureRow).length ∧
    ((attachOpp [wrowA, wrowB]).getD 0 default).opp_avg_pts = wrowB.team_avg_pts :=
  ⟨(opp_avg_pts_spec [wrowA, wrowB] (by decide) 0 (by norm_num)).1,
   ((opp_avg_pts_spec [wrowA, wrowB] (by decide) 0 (by norm_num)).2.1 wrowB
      (by simp) rfl rfl).1⟩

/-- Every merged pair's left component is the row that contributed it. -/
theorem mergeContrib_fst (rows : List FeatureRow) (r0 : FeatureRow)
    (q : FeatureRow × Option ℚ) (hq : q ∈ mergeContrib rows r0) : q.1 = r0 := by
  unfold mergeContrib at hq
  by_cases h : (oppMatches rows r0).isEmpty
  · rw [if_pos h] at hq
    simp at hq
    rw [hq]
  · rw [if_neg h] at hq
    rcases List.mem_map.mp hq with ⟨s, _, rfl⟩
    rfl

/-- Every output row of `attachOpp` is an input row with only its
`opp_avg_pts` field rewritten. -/
theorem mem_attachOpp (rows : List FeatureRow) (r : FeatureRow)
    (hr : r ∈ attachOpp rows) :
    ∃ b ∈ rows, ∃ v : ℚ, r = { b with opp_avg_pts := v } := by
  unfold attachOpp at hr
  rcases List.mem_map.mp hr with ⟨q, hq, rfl⟩
  rcases List.mem_flatMap.mp hq with ⟨b, hb, hqb⟩
  exact ⟨b, hb, _, by rw [mergeContrib_fst rows b q hqb]⟩

/-- When both xG columns are absent, every row of `featBase` has synthesized
zero xG columns and hence `xGD = 0`. -/
theorem featBase_xG_zero (p : Panel) (hxf : p.hasXGfor = false)
    (hxa : p.hasXGagainst = false) (b : FeatureRow) (hb : b ∈ featBase p) :
    b.xG_for = 0 ∧ b.xG_against = 0 ∧ b.xGD = 0 := by
  unfold featBase at hb
  rcases List.mem_flatMap.mp hb with ⟨g, _, hbg⟩
  rcases List.mem_map.mp hbg with ⟨i, _, rfl⟩
  simp [hxf, hxa]

/-- Claim C9: the feature engine fails with a `SchemaError` when the
structurally required `goals_against` column or `pts` column is absent
(returning the error to the caller), while entirely absent xG columns are
synthesized as zero without error. -/
theorem schema_error_spec :
    (∀ p : Panel, p.hasGoalsAgainst = false →
        add_basic_features p = .error ⟨"goals_against"⟩) ∧
    (∀ p : Panel, p.hasGoalsAgainst = true → p.hasYellow = true → p.hasRed = true →
        p.hasPts = false → add_basic_features p = .error ⟨"pts"⟩) ∧
    (∀ p : Panel, p.hasGoalsAgainst = true → p.hasYellow = true → p.hasRed = true →
        p.hasPts = true → p.hasXGfor = false → p.hasXGagainst = false →
        ∃ out, add_basic_features p = .ok out ∧
          ∀ r ∈ out, r.xG_for = 0 ∧ r.xG_against = 0 ∧ r.xGD = 0) := by
  refine ⟨?_, ?_, ?_⟩
  · intro p h
    simp [add_basic_features, h]
  · intro p h1 h2 h3 h4
    simp [add_basic_features, h1, h2, h3, h4]
  · intro p h1 h2 h3 h4 hxf hxa
    refine ⟨attachOpp (featBase p), ?_, ?_⟩
    · simp [add_basic_features, h1, h2, h3, h4]
    · intro r hr
      rcases mem_attachOpp _ r hr with ⟨b, hb, v, rfl⟩
      have hz := featBase_xG_zero p hxf hxa b hb
      exact ⟨hz.1, hz.2.1, hz.2.2⟩

/-- Witness for C9: a panel with no `goals_against` column errors on that
column. -/
theorem schema_error_spec_witness :
    add_basic_features ⟨[], false, false, false, false, false, false⟩
      = .error ⟨"goals_against"⟩ :=
  schema_error_spec.1 ⟨[], false, false, false, false, false, false⟩ rfl

/-! ### Pricing (`pricing.py`) -/

/-- One row of the features CSV as consumed by `pricing.py`; every numeric
column used there may hold `NaN` and is filled with `0.0` before use. The
unused `form3` column is carried along to state its non-influence. -/
structure StockRow where
  team : Nat
  date : Nat
  pts : Option ℚ
  xGD : Option ℚ
  clean_sheet : Option ℚ
  card_points : Option ℚ
  opp_avg_pts : Option ℚ
  form3 : Option ℚ
deriving DecidableEq, Inhabited

/-- The six pricing coefficients. -/
structure Coeffs where
  alpha : ℚ
  beta : ℚ
  gamma : ℚ
  delta : ℚ
  epsilon : ℚ
  zeta : ℚ
deriving DecidableEq

/-- `fillna(0.0)` on one cell. -/
def fillq (v : Option ℚ) : ℚ := v.getD 0

/-- The per-row price delta
`ΔP = α·pts + β·xGD + γ·clean_sheet − δ·card_points − ε·opp_avg_pts + ζ`,
with `NaN`s in the five feature columns filled with `0.0`. -/
def deltaP (c : Coeffs) (r : StockRow) : ℚ :=
  c.alpha * fillq r.pts + c.beta * fillq r.xGD + c.gamma * fillq r.clean_sheet
    - c.delta * fillq r.card_points - c.epsilon * fillq r.opp_avg_pts + c.zeta

/-- One priced output row: the source row plus its `delta_P` and `price`
columns. -/
structure PricedRow where
  row : StockRow
  delta_P : ℚ
  price : ℚ
deriving DecidableEq, Inhabited

/-- Price one team's date-ordered group: `groupby("team").cumsum() + 100`
followed by `clip(lower=1.0)`, i.e.
`price[i] = max(1, 100 + Σ_{k ≤ i} ΔP[k])` within the group. -/
def pricesOfRun (c : Coeffs) (g : List StockRow) : List PricedRow :=
  (List.range g.length).map (fun i =>
    { row := g.getD i default,
      delta_P := deltaP c (g.getD i default),
      price := max 1 (100 + ((g.take (i + 1)).map (deltaP c)).sum) })

/-- `compute_stock_prices`: sort by `(team, date)`, compute `delta_P` per
row, and integrate the per-team cumulative price with the `1.0` floor
applied pointwise. -/
def compute_stock_prices (c : Coeffs) (df : List StockRow) : List PricedRow :=
  (splitRuns StockRow.team (df.insertionSort (sortLe StockRow.team StockRow.date))).flatMap
    (pricesOfRun c)

/-- The global shrink factor applied to all six coefficients. -/
def shrink : ℚ := 0.15

/-- The hand-picked fallback coefficients (base values times `shrink`). -/
def fallbackCoeffs : Coeffs :=
  { alpha := 0.3 * shrink, beta := 0.5 * shrink, gamma := 0.3 * shrink,
    delta := 0.1 * shrink, epsilon := 0.05 * shrink, zeta := 0.2 * shrink }

/-- The design-matrix row of one observation: an intercept column of ones
prepended to `[xGD, clean_sheet, card_points, opp_avg_pts]`, `NaN`s filled
with `0.0`. -/
def xcol (r : StockRow) : Fin 5 → ℚ :=
  ![1, fillq r.xGD, fillq r.clean_sheet, fillq r.card_points, fillq r.opp_avg_pts]

/-- `XᵀX` for the design matrix over the given rows. -/
def XtX (df : List StockRow) : Matrix (Fin 5) (Fin 5) ℚ :=
  Matrix.of fun i j => (df.map (fun r => xcol r i * xcol r j)).sum

/-- `Xᵀy` with target `y = pts` (`NaN`s filled with `0.0`). -/
def Xty (df : List StockRow) : Fin 5 → ℚ :=
  fun i => (df.map (fun r => xcol r i * fillq r.pts)).sum

/-- The ridge penalty strength `lambda_ridge = 1.0`. -/
def lambda_ridge : ℚ := 1

/-- The identity matrix with entry `(0,0)` zeroed, so the intercept is not
penalized. -/
def ridgeEye : Matrix (Fin 5) (Fin 5) ℚ :=
  Matrix.of fun i j => if i = j then (if i = 0 then 0 else 1) else 0

/-- The ridge normal-equations matrix `XᵀX + λ·I'`. -/
def ridgeSystem (df : List StockRow) : Matrix (Fin 5) (Fin 5) ℚ :=
  XtX df + lambda_ridge • ridgeEye

/-- `np.linalg.solve`: the unique solution `A⁻¹ b` of `A θ = b`, computed by
the explicit inverse `det⁻¹ • adjugate`; raises (`none`) iff `A` is
singular. -/
def linSolve (A : Matrix (Fin 5) (Fin 5) ℚ) (b : Fin 5 → ℚ) : Option (Fin 5 → ℚ) :=
  if A.det = 0 then none else some (((A.det)⁻¹ • A.adjugate).mulVec b)

/-- What `linSolve` returns solves the system. -/
theorem linSolve_solves (A : Matrix (Fin 5) (Fin 5) ℚ) (b θ : Fin 5 → ℚ)
    (h : linSolve A b = some θ) : A.mulVec θ = b := by
  unfold linSolve at h
  by_cases hd : A.det = 0
  · rw [if_pos hd] at h
    exact absurd h (by simp)
  · rw [if_neg hd] at h
    have hθ : θ = ((A.det)⁻¹ • A.adjugate).mulVec b := by
      exact (Option.some.injEq _ _ ▸ h).symm
    rw [hθ, Matrix.mulVec_mulVec, Matrix.mul_smul, Matrix.mul_adjugate, smul_smul,
      inv_mul_cancel₀ hd, one_smul, Matrix.one_mulVec]

/-- The system `A θ = b` has no other solution than the one `linSolve`
returns. -/
theorem linSolve_unique (A : Matrix (Fin 5) (Fin 5) ℚ) (b θ θ' : Fin 5 → ℚ)
    (h : linSolve A b = some θ) (h' : A.mulVec θ' = b) : θ' = θ := by
  unfold linSolve at h
  by_cases hd : A.det = 0
  · rw [if_pos hd] at h
    exact absurd h (by simp)
  · rw [if_neg hd] at h
    have hθ : θ = ((A.det)⁻¹ • A.adjugate).mulVec b := by
      exact (Option.some.injEq _ _ ▸ h).symm
    rw [hθ, ← h', Matrix.mulVec_mulVec, Matrix.smul_mul, Matrix.adjugate_mul, smul_smul,
      inv_mul_cancel₀ hd, one_smul, Matrix.one_mulVec]

/-- `fit_pricing_coefficients`: with fewer than 200 rows return the fixed
fallback coefficients; otherwise solve the ridge normal equations, take
`δ = |δ_raw|` and `ε = |ε_raw|`, keep the signs of `β`, `γ`, `ζ`, fix
`α = 0.3`, and multiply all six coefficients by `shrink`. A singular system
propagates the solver's failure (`none`). -/
def fit_pricing_coefficients (df : List StockRow) : Option Coeffs :=
  if df.length < 200 then some fallbackCoeffs
  else (linSolve (ridgeSystem df) (Xty df)).map (fun θ =>
    { alpha := 0.3 * shrink, beta := θ 1 * shrink, gamma := θ 2 * shrink,
      delta := |θ 3| * shrink, epsilon := |θ 4| * shrink, zeta := θ 0 * shrink })

/-- Claim C3: with fewer than 200 rows the fitter performs no regression and
returns exactly `alpha = 0.045`, `beta = 0.075`, `gamma = 0.045`,
`delta = 0.015`, `epsilon = 0.0075`, `zeta = 0.03` — the base values
`{0.3, 0.5, 0.3, 0.1, 0.05, 0.2}` each multiplied by `0.15` — regardless of
the row contents. -/
theorem fit_fallback_spec (df : List StockRow) (h : df.length < 200) :
    fit_pricing_coefficients df = some fallbackCoeffs ∧
    fallbackCoeffs = { alpha := 0.045, beta := 0.075, gamma := 0.045,
                       delta := 0.015, epsilon := 0.0075, zeta := 0.03 } := by
  constructor
  · unfold fit_pricing_coefficients
    rw [if_pos h]
  · unfold fallbackCoeffs shrink
    simp only [Coeffs.mk.injEq]
    norm_num

/-- Witness for C3 at the empty table. -/
theorem fit_fallback_spec_witness :
    fit_pricing_coefficients [] = some fallbackCoeffs ∧
    fallbackCoeffs = { alpha := 0.045, beta := 0.075, gamma := 0.045,
                       delta := 0.015, epsilon := 0.0075, zeta := 0.03 } :=
  fit_fallback_spec [] (by norm_num)

/-- Claim C8: every price the integrator produces is at least `1.0`, at
every position of every team's cumulative sequence, for every input and
every coefficient set. -/
theorem price_floor_spec (c : Coeffs) (df : List StockRow) (q : PricedRow)
    (hq : q ∈ compute_stock_prices c df) : 1 ≤ q.price := by
  unfold compute_stock_prices at hq
  rcases List.mem_flatMap.mp hq with ⟨g, _, hg⟩
  unfold pricesOfRun at hg
  rcases List.mem_map.mp hg with ⟨i, _, rfl⟩
  exact le_max_left 1 _

/-- Witness for C8: the single default row with zero coefficients prices at
`max 1 100 ≥ 1`. -/
theorem price_floor_spec_witness :
    (1 : ℚ) ≤ (PricedRow.mk default 0 (max 1 100)).price := by
  refine price_floor_spec ⟨0, 0, 0, 0, 0, 0⟩ [default] _ ?_
  have hd : deltaP ⟨0, 0, 0, 0, 0, 0⟩ default = 0 := by
    simp [deltaP, fillq]
  simp [compute_stock_prices, List.insertionSort, splitRuns, splitRunsAux,
    pricesOfRun, List.range_succ, hd]

/-! ### Run-splitting lemmas for the per-team cumulative price -/

/-- Unfolding equation for `splitRunsAux` on a cons cell. -/
theorem splitRunsAux_cons {α : Type} (key : α → Nat) (a b : α) (bs : List α) :
    splitRunsAux key a (b :: bs)
      = if key a = key b
        then (a :: (splitRunsAux key b bs).1, (splitRunsAux key b bs).2)
        else ([a], (splitRunsAux key b bs).1 :: (splitRunsAux key b bs).2) := by
  simp [splitRunsAux]

/-- The run and the remaining runs of `splitRunsAux` rebuild the input. -/
theorem splitRunsAux_join {α : Type} (key : α → Nat) (a : α) (l : List α) :
    (splitRunsAux key a l).1 ++ (splitRunsAux key a l).2.flatten = a :: l := by
  induction l generalizing a with
  | nil => rfl
  | cons b bs ih =>
    rw [splitRunsAux_cons]
    by_cases h : key a = key b
    · rw [if_pos h]
      simpa using ih b
    · rw [if_neg h]
      simpa using ih b

/-- The current run starts with the carried head. -/
theorem splitRunsAux_head {α : Type} (key : α → Nat) (a : α) (l : List α) :
    ∃ t, (splitRunsAux key a l).1 = a :: t := by
  cases l with
  | nil => exact ⟨[], rfl⟩
  | cons b bs =>
    rw [splitRunsAux_cons]
    by_cases h : key a = key b
    · rw [if_pos h]
      exact ⟨_, rfl⟩
    · rw [if_neg h]
      exact ⟨[], rfl⟩

/-- Every element of the current run shares the carried head's key. -/
theorem splitRunsAux_uniform {α : Type} (key : α → Nat) (a : α) (l : List α) :
    ∀ x ∈ (splitRunsAux key a l).1, key x = key a := by
  induction l generalizing a with
  | nil =>
    intro x hx
    simp only [splitRunsAux, List.mem_singleton] at hx
    rw [hx]
  | cons b bs ih =>
    intro x hx
    rw [splitRunsAux_cons] at hx
    by_cases h : key a = key b
    · rw [if_pos h] at hx
      rcases List.mem_cons.mp hx with rfl | hx'
      · rfl
      · rw [ih b x hx', h]
    · rw [if_neg h] at hx
      simp only [List.mem_singleton] at hx
      rw [hx]

/-- On a key-sorted tail, the remaining runs of `splitRunsAux` are nonempty,
key-uniform, strictly above the carried head's key, and pairwise
key-disjoint. -/
theorem splitRunsAux_sorted {α : Type} (key : α → Nat) (a : α) (l : List α)
    (hs : (a :: l).Pairwise (fun x y => key x ≤ key y)) :
    (∀ g ∈ (splitRunsAux key a l).2, g ≠ [] ∧ (∀ x ∈ g, ∀ y ∈ g, key x = key y) ∧
       (∀ x ∈ g, key a < key x)) ∧
    (splitRunsAux key a l).2.Pairwise (fun g h' => ∀ x ∈ g, ∀ y ∈ h', key x ≠ key y) := by
  induction l generalizing a with
  | nil => simp [splitRunsAux]
  | cons b bs ih =>
    have hs' : (b :: bs).Pairwise (fun x y => key x ≤ key y) :=
      (List.pairwise_cons.mp hs).2
    have hab : key a ≤ key b :=
      (List.pairwise_cons.mp hs).1 b (List.mem_cons_self b bs)
    have IH := ih b hs'
    rw [splitRunsAux_cons]
    by_cases h : key a = key b
    · rw [if_pos h]
      refine ⟨?_, IH.2⟩
      intro g hg
      obtain ⟨hne, huni, hlt⟩ := IH.1 g hg
      exact ⟨hne, huni, fun x hx => h ▸ hlt x hx⟩
    · rw [if_neg h]
      have halt : key a < key b := lt_of_le_of_ne hab h
      constructor
      · intro g hg
        rcases List.mem_cons.mp hg with rfl | hg'
        · refine ⟨?_, ?_, ?_⟩
          · obtain ⟨t, ht⟩ := splitRunsAux_head key b bs
            rw [ht]
            exact List.cons_ne_nil b t
          · intro x hx y hy
            rw [splitRunsAux_uniform key b bs x hx, splitRunsAux_uniform key b bs y hy]
          · intro x hx
            rw [splitRunsAux_uniform key b bs x hx]
            exact halt
        · obtain ⟨hne, huni, hlt⟩ := IH.1 g hg'
          exact ⟨hne, huni, fun x hx => halt.trans (hlt x hx)⟩
      · rw [List.pairwise_cons]
        refine ⟨?_, IH.2⟩
        intro g hg x hx y hy
        rw [splitRunsAux_uniform key b bs x hx]
        exact Nat.ne_of_lt ((IH.1 g hg).2.2 y hy)

/-- The runs of `splitRuns` flatten back to the input list. -/
theorem splitRuns_flatten {α : Type} (key : α → Nat) (l : List α) :
    (splitRuns key l).flatten = l := by
  cases l with
  | nil => rfl
  | cons a as =>
    show (splitRunsAux key a as).1 ++ (splitRunsAux key a as).2.flatten = a :: as
    exact splitRunsAux_join key a as

/-- On a key-sorted list the runs are nonempty, key-uniform, and pairwise
key-disjoint. -/
theorem splitRuns_props {α : Type} (key : α → Nat) (l : List α)
    (hs : l.Pairwise (fun x y => key x ≤ key y)) :
    (∀ g ∈ splitRuns key l, g ≠ [] ∧ ∀ x ∈ g, ∀ y ∈ g, key x = key y) ∧
    (splitRuns key l).Pairwise (fun g h' => ∀ x ∈ g, ∀ y ∈ h', key x ≠ key y) := by
  cases l with
  | nil => simp [splitRuns]
  | cons a as =>
    have H := splitRunsAux_sorted key a as hs
    constructor
    · intro g hg
      rcases List.mem_cons.mp hg with rfl | hg'
      · constructor
        · obtain ⟨t, ht⟩ := splitRunsAux_head key a as
          rw [ht]
          exact List.cons_ne_nil a t
        · intro x hx y hy
          rw [splitRunsAux_uniform key a as x hx, splitRunsAux_uniform key a as y hy]
      · exact ⟨(H.1 g hg').1, (H.1 g hg').2.1⟩
    · show List.Pairwise _ ((splitRunsAux key a as).1 :: (splitRunsAux key a as).2)
      rw [List.pairwise_cons]
      refine ⟨?_, H.2⟩
      intro g hg x hx y hy
      rw [splitRunsAux_uniform key a as x hx]
      exact Nat.ne_of_lt ((H.1 g hg).2.2 y hy)

/-- Every priced row of a run carries a source row of that run. -/
theorem pricesOfRun_row_mem (c : Coeffs) (g : List StockRow) (q : PricedRow)
    (hq : q ∈ pricesOfRun c g) : q.row ∈ g := by
  unfold pricesOfRun at hq
  rcases List.mem_map.mp hq with ⟨i, hi, rfl⟩
  have hi' : i < g.length := List.mem_range.mp hi
  show g.getD i default ∈ g
  rw [List.getD_eq_getElem _ _ hi']
  exact List.getElem_mem hi'

/-- Filtering the per-run priced output to one team equals pricing that
team's own flattened rows, provided the runs are nonempty, team-uniform and
pairwise team-disjoint. -/
theorem flatMap_prices_filter (c : Coeffs) (t : Nat) :
    ∀ runs : List (List StockRow),
      (∀ g ∈ runs, g ≠ [] ∧ ∀ x ∈ g, ∀ y ∈ g, x.team = y.team) →
      runs.Pairwise (fun g h' => ∀ x ∈ g, ∀ y ∈ h', x.team ≠ y.team) →
      (runs.flatMap (pricesOfRun c)).filter (fun q => q.row.team = t)
        = pricesOfRun c (runs.flatten.filter (fun r => r.team = t)) := by
  intro runs
  induction runs with
  | nil =>
    intro _ _
    simp [pricesOfRun]
  | cons g gs ih =>
    intro hprop hpw
    obtain ⟨hne, huni⟩ := hprop g (List.mem_cons_self g gs)
    obtain ⟨hpwhead, hpwtail⟩ := List.pairwise_cons.mp hpw
    have ihgs := ih (fun g' hg' => hprop g' (List.mem_cons_of_mem g hg')) hpwtail
    rw [List.flatMap_cons, List.flatten_cons, List.filter_append, List.filter_append]
    obtain ⟨a, ha⟩ := List.exists_mem_of_ne_nil g hne
    by_cases hat : a.team = t
    · have hall : ∀ x ∈ g, x.team = t := fun x hx => (huni x hx a ha).trans hat
      have h1 : g.filter (fun r => r.team = t) = g :=
        List.filter_eq_self.mpr (fun x hx => by simpa using hall x hx)
      have h2 : (pricesOfRun c g).filter (fun q => q.row.team = t) = pricesOfRun c g :=
        List.filter_eq_self.mpr (fun q hq => by
          simpa using hall q.row (pricesOfRun_row_mem c g q hq))
      have hno : ∀ y ∈ gs.flatten, ¬y.team = t := by
        intro y hy
        rcases List.mem_flatten.mp hy with ⟨h', hh', hyh⟩
        intro hyt
        exact hpwhead h' hh' a ha y hyh (hat.trans hyt.symm)
      have h3 : gs.flatten.filter (fun r => r.team = t) = [] :=
        List.filter_eq_nil_iff.mpr (fun y hy => by simpa using hno y hy)
      have h4 : (gs.flatMap (pricesOfRun c)).filter (fun q => q.row.team = t) = [] := by
        refine List.filter_eq_nil_iff.mpr (fun q hq => ?_)
        rcases List.mem_flatMap.mp hq with ⟨h', hh', hqh⟩
        have := hno q.row (List.mem_flatten.mpr ⟨h', hh', pricesOfRun_row_mem c h' q hqh⟩)
        simpa using this
      rw [h1, h2, h3, h4, List.append_nil, List.append_nil]
    · have hall : ∀ x ∈ g, ¬x.team = t := fun x hx hxt => hat ((huni a ha x hx).trans hxt)
      have h1 : g.filter (fun r => r.team = t) = [] :=
        List.filter_eq_nil_iff.mpr (fun x hx => by simpa using hall x hx)
      have h2 : (pricesOfRun c g).filter (fun q => q.row.team = t) = [] := by
        refine List.filter_eq_nil_iff.mpr (fun q hq => ?_)
        simpa using hall q.row (pricesOfRun_row_mem c g q hq)
      rw [h1, h2, List.nil_append, List.nil_append, ihgs]

/-- Claim C1: for every feature row, `delta_P` follows the coefficient
formula with missing values filled by `0.0`, and the priced output restricted
to any team `t` is exactly the independent cumulative computation on that
team's date-ordered rows of the sorted frame, with
`price[i] = max(1, 100 + Σ_{k ≤ i} delta_P[k])` applied pointwise to the
running sum — cumulative sums never cross team boundaries. -/
theorem compute_stock_prices_spec (c : Coeffs) (df : List StockRow) (t : Nat) :
    ((compute_stock_prices c df).filter (fun q => q.row.team = t))
      = pricesOfRun c ((df.insertionSort (sortLe StockRow.team StockRow.date)).filter
          (fun r => r.team = t)) ∧
    ((df.insertionSort (sortLe StockRow.team StockRow.date)).filter
        (fun r => r.team = t)).Sorted (fun a b => a.date ≤ b.date) ∧
    (∀ (g : List StockRow) (i : ℕ), i < g.length →
        (pricesOfRun c g).getD i default
          = { row := g.getD i default, delta_P := deltaP c (g.getD i default),
              price := max 1 (100 + ((g.take (i + 1)).map (deltaP c)).sum) }) := by
  have hsorted : (df.insertionSort (sortLe StockRow.team StockRow.date)).Sorted
      (sortLe StockRow.team StockRow.date) :=
    List.sorted_insertionSort _ df
  refine ⟨?_, ?_, ?_⟩
  · have hmono : (df.insertionSort (sortLe StockRow.team StockRow.date)).Pairwise
        (fun x y => x.team ≤ y.team) := by
      refine List.Pairwise.imp ?_ hsorted
      intro a b hab
      rcases hab with h | ⟨h, _⟩
      · exact le_of_lt h
      · exact le_of_eq h
    have H := splitRuns_props StockRow.team _ hmono
    unfold compute_stock_prices
    rw [flatMap_prices_filter c t _ H.1 H.2, splitRuns_flatten]
  · have hpw : ((df.insertionSort (sortLe StockRow.team StockRow.date)).filter
        (fun r => r.team = t)).Pairwise (sortLe StockRow.team StockRow.date) :=
      List.Pairwise.sublist (List.filter_sublist _) hsorted
    refine List.Pairwise.imp_of_mem ?_ hpw
    intro a b ha hb hab
    have hat : a.team = t := by simpa using (List.mem_filter.mp ha).2
    have hbt : b.team = t := by simpa using (List.mem_filter.mp hb).2
    rcases hab with h | ⟨_, hd⟩
    · exact absurd (hat.trans hbt.symm) (Nat.ne_of_lt h)
    · exact hd
  · intro g i hi
    have hlen : i < (pricesOfRun c g).length := by simpa [pricesOfRun] using hi
    rw [List.getD_eq_getElem _ _ hlen]
    simp [pricesOfRun]

/-- Witness for C1: the pointwise price formula evaluated at a concrete
one-row group. -/
theorem compute_stock_prices_spec_witness :
    (pricesOfRun ⟨1, 0, 0, 0, 0, 0⟩ [default]).getD 0 default
      = { row := ([default] : List StockRow).getD 0 default,
          delta_P := deltaP ⟨1, 0, 0, 0, 0, 0⟩ (([default] : List StockRow).getD 0 default),
          price := max 1 (100 + ((([default] : List StockRow).take (0 + 1)).map
            (deltaP ⟨1, 0, 0, 0, 0, 0⟩)).sum) } :=
  (compute_stock_prices_spec ⟨1, 0, 0, 0, 0, 0⟩ [] 0).2.2 [default] 0 (by norm_num)

/-- Claim C2: with at least 200 rows the fitter solves the ridge normal
equations `(XᵀX + λ·I')·θ = Xᵀy` (λ = 1, intercept unpenalized, `NaN`s
filled with `0.0`) — the solution is unique, i.e. `θ = (XᵀX + λ·I')⁻¹Xᵀy` —
and returns `δ = |δ_raw|`, `ε = |ε_raw|`, the signs of `β`, `γ`, `ζ`
preserved, `α` fixed at `0.3`, all six coefficients multiplied by the shrink
factor `0.15`. -/
theorem fit_regression_spec (df : List StockRow) (c : Coeffs)
    (hn : 200 ≤ df.length) (hc : fit_pricing_coefficients df = some c) :
    ∃ θ : Fin 5 → ℚ,
      (ridgeSystem df).mulVec θ = Xty df ∧
      (∀ θ' : Fin 5 → ℚ, (ridgeSystem df).mulVec θ' = Xty df → θ' = θ) ∧
      c = { alpha := 0.3 * shrink, beta := θ 1 * shrink, gamma := θ 2 * shrink,
            delta := |θ 3| * shrink, epsilon := |θ 4| * shrink, zeta := θ 0 * shrink } := by
  unfold fit_pricing_coefficients at hc
  rw [if_neg (by omega)] at hc
  rcases Option.map_eq_some'.mp hc with ⟨θ, hθ, hcθ⟩
  exact ⟨θ, linSolve_solves _ _ _ hθ,
    fun θ' h' => linSolve_unique _ _ _ _ hθ h', hcθ.symm⟩

/-- Witness for C2: 200 copies of the all-`NaN` row give the diagonal system
`diag(200, 1, 1, 1, 1)·θ = 0` with solution `θ = 0`. -/
theorem fit_regression_spec_witness :
    200 ≤ (List.replicate 200 (⟨0, 0, none, none, none, none, none, none⟩ : StockRow)).length ∧
    ∃ θ : Fin 5 → ℚ,
      (ridgeSystem (List.replicate 200 (⟨0, 0, none, none, none, none, none, none⟩ :
          StockRow))).mulVec θ
          = Xty (List.replicate 200 (⟨0, 0, none, none, none, none, none, none⟩ : StockRow)) ∧
      (∀ θ' : Fin 5 → ℚ,
          (ridgeSystem (List.replicate 200 (⟨0, 0, none, none, none, none, none, none⟩ :
              StockRow))).mulVec θ'
            = Xty (List.replicate 200 (⟨0, 0, none, none, none, none, none, none⟩ :
                StockRow)) → θ' = θ) ∧
      (⟨0.3 * shrink, 0, 0, 0, 0, 0⟩ : Coeffs)
        = { alpha := 0.3 * shrink, beta := θ 1 * shrink, gamma := θ 2 * shrink,
            delta := |θ 3| * shrink, epsilon := |θ 4| * shrink,
            zeta := θ 0 * shrink } := by
  have hxcol : xcol ⟨0, 0, none, none, none, none, none, none⟩ = ![1, 0, 0, 0, 0] := by
    funext i
    fin_cases i <;> simp [xcol, fillq]
  have hXty : Xty (List.replicate 200 (⟨0, 0, none, none, none, none, none, none⟩ :
      StockRow)) = 0 := by
    funext i
    simp only [Xty, List.map_replicate, List.sum_replicate, fillq, Option.getD_none,
      mul_zero, smul_zero, Pi.zero_apply]
  have hA : ridgeSystem (List.replicate 200 (⟨0, 0, none, none, none, none, none, none⟩ :
      StockRow)) = Matrix.diagonal ![200, 1, 1, 1, 1] := by
    funext i j
    simp only [ridgeSystem, Matrix.add_apply, Matrix.smul_apply, XtX, Matrix.of_apply,
      ridgeEye, lambda_ridge, List.map_replicate, List.sum_replicate, hxcol,
      smul_eq_mul, one_mul]
    fin_cases i <;> fin_cases j <;> simp [Matrix.diagonal]
  have hdet : (Matrix.diagonal (![200, 1, 1, 1, 1] : Fin 5 → ℚ)).det = 200 := by
    rw [Matrix.det_diagonal]
    simp [Fin.prod_univ_succ]
  have hfit : fit_pricing_coefficients (List.replicate 200
      (⟨0, 0, none, none, none, none, none, none⟩ : StockRow))
      = some ⟨0.3 * shrink, 0, 0, 0, 0, 0⟩ := by
    unfold fit_pricing_coefficients
    rw [if_neg (by simp only [List.length_replicate]; omega)]
    unfold linSolve
    rw [hA, hXty, hdet, if_neg (by norm_num), Matrix.mulVec_zero]
    simp
  refine ⟨by simp only [List.length_replicate]; omega,
    fit_regression_spec _ _ (by simp only [List.length_replicate]; omega) hfit⟩

/-! ### Non-influence of `form3` on fitting and pricing -/

/-- A `StockRow` with the `form3` column projected away. -/
structure StockRowNF where
  team : Nat
  date : Nat
  pts : Option ℚ
  xGD : Option ℚ
  clean_sheet : Option ℚ
  card_points : Option ℚ
  opp_avg_pts : Option ℚ
deriving DecidableEq

/-- Forget the `form3` column of a row. -/
def stripForm3 (r : StockRow) : StockRowNF :=
  ⟨r.team, r.date, r.pts, r.xGD, r.clean_sheet, r.card_points, r.opp_avg_pts⟩

/-- `deltaP` on `form3`-free rows. -/
def deltaPNF (c : Coeffs) (s : StockRowNF) : ℚ :=
  c.alpha * fillq s.pts + c.beta * fillq s.xGD + c.gamma * fillq s.clean_sheet
    - c.delta * fillq s.card_points - c.epsilon * fillq s.opp_avg_pts + c.zeta

/-- `xcol` on `form3`-free rows. -/
def xcolNF (s : StockRowNF) : Fin 5 → ℚ :=
  ![1, fillq s.xGD, fillq s.clean_sheet, fillq s.card_points, fillq s.opp_avg_pts]

/-- The `(delta_P, price)` sequence determined by a group's delta sequence
alone. -/
def pairSeq (ds : List ℚ) : List (ℚ × ℚ) :=
  (List.range ds.length).map (fun i => (ds.getD i 0, max 1 (100 + (ds.take (i + 1)).sum)))

/-- `splitRunsAux` commutes with a key-preserving map. -/
theorem splitRunsAux_map {α β : Type} (key : α → Nat) (key' : β → Nat) (f : α → β)
    (hk : ∀ x, key' (f x) = key x) (a : α) (l : List α) :
    splitRunsAux key' (f a) (l.map f)
      = ((splitRunsAux key a l).1.map f, (splitRunsAux key a l).2.map (List.map f)) := by
  induction l generalizing a with
  | nil => rfl
  | cons b bs ih =>
    rw [List.map_cons, splitRunsAux_cons, splitRunsAux_cons, ih b, hk a, hk b]
    by_cases h : key a = key b
    · rw [if_pos h, if_pos h]
      rfl
    · rw [if_neg h, if_neg h]
      rfl

/-- `splitRuns` commutes with a key-preserving map. -/
theorem splitRuns_map {α β : Type} (key : α → Nat) (key' : β → Nat) (f : α → β)
    (hk : ∀ x, key' (f x) = key x) (l : List α) :
    (splitRuns key l).map (List.map f) = splitRuns key' (l.map f) := by
  cases l with
  | nil => rfl
  | cons a as =>
    show (splitRunsAux key a as).1.map f :: (splitRunsAux key a as).2.map (List.map f)
        = splitRuns key' (f a :: as.map f)
    rw [show splitRuns key' (f a :: as.map f)
        = (splitRunsAux key' (f a) (as.map f)).1 :: (splitRunsAux key' (f a) (as.map f)).2
      from rfl, splitRunsAux_map key key' f hk a as]

/-- The `(delta_P, price)` columns of a priced run are a function of the
run's delta sequence alone. -/
theorem pricesOfRun_pair (c : Coeffs) (g : List StockRow) :
    (pricesOfRun c g).map (fun q => (q.delta_P, q.price)) = pairSeq (g.map (deltaP c)) := by
  unfold pricesOfRun pairSeq
  rw [List.map_map, List.length_map]
  refine List.map_congr_left ?_
  intro i hi
  have hi' : i < g.length := List.mem_range.mp hi
  have h1 : (g.map (deltaP c)).getD i 0 = deltaP c (g.getD i default) := by
    rw [List.getD_eq_getElem _ _ (by simpa using hi'), List.getD_eq_getElem _ _ hi',
      List.getElem_map]
  have h2 : (g.map (deltaP c)).take (i + 1) = (g.take (i + 1)).map (deltaP c) :=
    (List.map_take _ _ _).symm
  simp only [Function.comp_apply, Prod.mk.injEq]
  exact ⟨h1.symm, by rw [h2]⟩

/-- The `(delta_P, price)` columns of the priced output are a function of the
`form3`-free projection of the input. -/
theorem compute_pair_strip (c : Coeffs) (df : List StockRow) :
    (compute_stock_prices c df).map (fun q => (q.delta_P, q.price))
      = (splitRuns StockRowNF.team ((df.map stripForm3).insertionSort
          (sortLe StockRowNF.team StockRowNF.date))).flatMap
          (fun g => pairSeq (g.map (deltaPNF c))) := by
  unfold compute_stock_prices
  rw [List.map_flatMap]
  have hfun : (fun g => (pricesOfRun c g).map (fun q => (q.delta_P, q.price)))
      = (fun g : List StockRow => pairSeq (g.map (deltaP c))) :=
    funext (pricesOfRun_pair c)
  rw [hfun]
  have hsort : (df.insertionSort (sortLe StockRow.team StockRow.date)).map stripForm3
      = (df.map stripForm3).insertionSort (sortLe StockRowNF.team StockRowNF.date) :=
    List.map_insertionSort _ _ stripForm3 _ (fun a _ b _ => Iff.rfl)
  rw [← hsort,
    ← splitRuns_map StockRow.team StockRowNF.team stripForm3 (fun x => rfl),
    List.flatMap_map]
  have hcomp : (fun g : List StockRow => pairSeq ((List.map stripForm3 g).map (deltaPNF c)))
      = (fun g : List StockRow => pairSeq (g.map (deltaP c))) := by
    funext g
    rw [List.map_map]
    rfl
  rw [hcomp]

/-- Claim C10: two feature tables that differ only in their `form3` values
yield identical fitted coefficients and identical `delta_P` and `price`
sequences — `form3` has no influence on fitting or pricing. -/
theorem form3_noninterference (c : Coeffs) (df₁ df₂ : List StockRow)
    (h : df₁.map stripForm3 = df₂.map stripForm3) :
    fit_pricing_coefficients df₁ = fit_pricing_coefficients df₂ ∧
    (compute_stock_prices c df₁).map (fun q => (q.delta_P, q.price))
      = (compute_stock_prices c df₂).map (fun q => (q.delta_P, q.price)) := by
  constructor
  · have hlen : df₁.length = df₂.length := by
      have hl := congrArg List.length h
      simpa using hl
    have hX : XtX df₁ = XtX df₂ := by
      funext i j
      show (df₁.map (fun r => xcol r i * xcol r j)).sum
          = (df₂.map (fun r => xcol r i * xcol r j)).sum
      have e1 : (fun r : StockRow => xcol r i * xcol r j)
          = (fun s : StockRowNF => xcolNF s i * xcolNF s j) ∘ stripForm3 := rfl
      rw [e1, ← List.map_map, ← List.map_map, h]
    have hy : Xty df₁ = Xty df₂ := by
      funext i
      show (df₁.map (fun r => xcol r i * fillq r.pts)).sum
          = (df₂.map (fun r => xcol r i * fillq r.pts)).sum
      have e1 : (fun r : StockRow => xcol r i * fillq r.pts)
          = (fun s : StockRowNF => xcolNF s i * fillq s.pts) ∘ stripForm3 := rfl
      rw [e1, ← List.map_map, ← List.map_map, h]
    unfold fit_pricing_coefficients ridgeSystem
    rw [hlen, hX, hy]
  · rw [compute_pair_strip, compute_pair_strip, h]

/-- Witness for C10: two one-row tables differing only in `form3`. -/
theorem form3_noninterference_witness :
    fit_pricing_coefficients [⟨0, 0, none, none, none, none, none, some 7⟩]
      = fit_pricing_coefficients [⟨0, 0, none, none, none, none, none, none⟩] ∧
    (compute_stock_prices ⟨1, 1, 1, 1, 1, 1⟩
        [⟨0, 0, none, none, none, none, none, some 7⟩]).map (fun q => (q.delta_P, q.price))
      = (compute_stock_prices ⟨1, 1, 1, 1, 1, 1⟩
        [⟨0, 0, none, none, none, none, none, none⟩]).map (fun q => (q.delta_P, q.price)) :=
  form3_noninterference ⟨1, 1, 1, 1, 1, 1⟩ _ _ rfl

end FootballPricing
